import Mathlib

set_option maxRecDepth 16000

/-!
Verification of the cos_log logging core (src/src/log.c, src/include/log.h).

Shallow embedding conventions:
* `log_level_t` enum values become `Nat` (`LL_INVALID = 0` … `LL_NONE = 7`,
  `LL_CNT = 8`), matching the C enum's integer values and comparisons.
* C strings (`char *` source names, level names) become `List Char`.
* The global `log_ctx` static becomes an explicit `log_ctx_t` value threaded
  through the operations; the zero-initialised static is `log_ctx_initial`.
* The uthash table `source_hm` becomes an insertion-ordered association list
  of `(address, element)` pairs.  The `address` component models the heap
  address returned by `calloc` for the element (needed because
  `log_src_dump` stores the pointer `elt->source`, not a copy of the
  string).  uthash semantics used by the C code: `HASH_FIND_STR` is exact
  string match, `HASH_ADD_STR` appends in insertion order, `hh.next`
  iterates in insertion order, `HASH_DEL` unlinks one element.
* Fallible C library calls (`pthread_mutex_init`, `pthread_mutex_destroy`,
  `calloc`, `malloc`) become explicit `Bool` oracle parameters
  (`true` = the call succeeded).
* Mutex lock/unlock themselves have no effect on the modelled state and are
  dropped; concurrency is not modelled.
-/

/-- C enum value `LL_INVALID`. -/
abbrev LL_INVALID : Nat := 0
/-- C enum value `LL_RAW`. -/
abbrev LL_RAW : Nat := 1
/-- C enum value `LL_TRACE`. -/
abbrev LL_TRACE : Nat := 2
/-- C enum value `LL_DEBUG`. -/
abbrev LL_DEBUG : Nat := 3
/-- C enum value `LL_INFO`. -/
abbrev LL_INFO : Nat := 4
/-- C enum value `LL_WARNING`. -/
abbrev LL_WARNING : Nat := 5
/-- C enum value `LL_ERROR`. -/
abbrev LL_ERROR : Nat := 6
/-- C enum value `LL_NONE`. -/
abbrev LL_NONE : Nat := 7
/-- C enum value `LL_CNT` (one past `LL_NONE`). -/
abbrev LL_CNT : Nat := 8

/-- C constant `LOG_SRC_STORED_MAX_SIZE`: size in bytes of the
`source` array inside `log_source_hm_elt_t`. -/
abbrev LOG_SRC_STORED_MAX_SIZE : Nat := 128

/-- C struct `log_source_hm_elt_t`: one registered source.  The stored name
is the C string held in the 128-byte `source` array (at most 127
characters plus the terminating NUL). -/
structure log_source_hm_elt where
  source : List Char
  min_log_level : Nat
deriving DecidableEq

/-- C struct `log_ctx_t` plus the allocator state needed to give fresh
addresses to hash elements.  `source_hm` lists `(address, element)` pairs in
uthash insertion order. -/
structure log_ctx_t where
  source_hm : List (Nat × log_source_hm_elt)
  next_addr : Nat
  min_log_level : Nat
  use_mutex : Bool
  initialized : Bool
deriving DecidableEq

/-- The zero-initialised static `log_ctx` at process start. -/
def log_ctx_initial : log_ctx_t :=
  { source_hm := [], next_addr := 0, min_log_level := 0,
    use_mutex := false, initialized := false }

/-- uthash `HASH_FIND_STR`: exact (case-sensitive) string lookup, returning
the matching element (the first match; keys are unique in reachable
states). -/
def HASH_FIND_STR (hm : List (Nat × log_source_hm_elt)) (source : List Char) :
    Option (Nat × log_source_hm_elt) :=
  hm.find? (fun p => p.2.source == source)

/-- C `check_log_level`: `requested >= current`. -/
def check_log_level (requested current : Nat) : Bool :=
  decide (current ≤ requested)

/-- C `is_log_allowed`: global threshold pre-filter, then per-source lookup;
an unregistered source is denied. -/
def is_log_allowed (ctx : log_ctx_t) (source : List Char) (log_level : Nat) :
    Bool :=
  if check_log_level log_level ctx.min_log_level then
    match HASH_FIND_STR ctx.source_hm source with
    | some elt => check_log_level log_level elt.2.min_log_level
    | none => false
  else false

/-- C `log_will_be_printed`: thin wrapper over `is_log_allowed` (the mutex
lock around it does not change the result). -/
def log_will_be_printed (ctx : log_ctx_t) (source : List Char)
    (log_level : Nat) : Bool :=
  is_log_allowed ctx source log_level

/-- C `log_init`.  `mutex_init_ok` models the result of
`pthread_mutex_init` (`true` = returned 0); it is consulted only when
`is_thread_safe` is set.  Note the C code stores `min_log_level` and
`use_mutex` before attempting mutex creation, so those fields are mutated
even on the mutex-failure path. -/
def log_init (ctx : log_ctx_t) (min_log_level : Nat) (is_thread_safe : Bool)
    (mutex_init_ok : Bool) : log_ctx_t × Bool :=
  if ctx.initialized = false then
    if min_log_level ≤ LL_INVALID ∨ min_log_level ≥ LL_CNT then (ctx, false)
    else
      let ctx1 := { ctx with min_log_level := min_log_level,
                             use_mutex := is_thread_safe }
      if is_thread_safe = true ∧ mutex_init_ok = false then (ctx1, false)
      else ({ ctx1 with initialized := true }, true)
  else (ctx, false)

/-- C `log_set_log_level`. -/
def log_set_log_level (ctx : log_ctx_t) (min_log_level : Nat) :
    log_ctx_t × Bool :=
  if min_log_level ≤ LL_INVALID ∨ min_log_level ≥ LL_CNT then (ctx, false)
  else if ctx.initialized = false then (ctx, false)
  else ({ ctx with min_log_level := min_log_level }, true)

/-- In-place update `existing->min_log_level = min_log_level` of the element
found by `HASH_FIND_STR` (the first element whose stored name matches). -/
def update_min_level : List (Nat × log_source_hm_elt) → List Char → Nat →
    List (Nat × log_source_hm_elt)
  | [], _, _ => []
  | p :: rest, source, lvl =>
    if p.2.source == source then
      (p.1, { p.2 with min_log_level := lvl }) :: rest
    else p :: update_min_level rest source lvl

/-- C `log_register`.  `calloc_ok` models the `calloc` result (`true` = a
fresh element was allocated).  The length guard is `strlen(source) > 128`,
while `strncpy(dst, source, 127)` plus a forced NUL stores only the first
127 characters (`List.take 127`). -/
def log_register (ctx : log_ctx_t) (source : List Char) (min_log_level : Nat)
    (calloc_ok : Bool) : log_ctx_t × Bool :=
  if min_log_level ≤ LL_INVALID ∨ min_log_level ≥ LL_CNT then (ctx, false)
  else if ctx.initialized = false then (ctx, false)
  else if source.length > LOG_SRC_STORED_MAX_SIZE then (ctx, false)
  else
    match HASH_FIND_STR ctx.source_hm source with
    | some _ =>
      ({ ctx with source_hm := update_min_level ctx.source_hm source
                    min_log_level }, true)
    | none =>
      if calloc_ok then
        let elt : log_source_hm_elt :=
          { source := source.take (LOG_SRC_STORED_MAX_SIZE - 1),
            min_log_level := min_log_level }
        ({ ctx with source_hm := ctx.source_hm ++ [(ctx.next_addr, elt)],
                    next_addr := ctx.next_addr + 1 }, true)
      else (ctx, false)

/-- Loop body of `log_register_ex`: register each descriptor in order,
stopping at the first failure.  `calloc_ok i` is the allocator oracle for
the `i`-th call. -/
def log_register_ex_loop (ctx : log_ctx_t) (descrs : List (List Char × Nat))
    (calloc_ok : Nat → Bool) (i : Nat) : log_ctx_t × Bool :=
  match descrs with
  | [] => (ctx, true)
  | d :: rest =>
    let r := log_register ctx d.1 d.2 (calloc_ok i)
    if r.2 then log_register_ex_loop r.1 rest calloc_ok (i + 1)
    else (r.1, false)

/-- C `log_register_ex`.  The `num_descrs && !descr` NULL-array guard has no
counterpart: a Lean list cannot be NULL. -/
def log_register_ex (ctx : log_ctx_t) (descrs : List (List Char × Nat))
    (calloc_ok : Nat → Bool) : log_ctx_t × Bool :=
  if ctx.initialized = false then (ctx, false)
  else log_register_ex_loop ctx descrs calloc_ok 0

/-- uthash `HASH_DEL` + `free` of the element found for `source`: unlink the
(first) matching element. -/
def remove_src : List (Nat × log_source_hm_elt) → List Char →
    List (Nat × log_source_hm_elt)
  | [], _ => []
  | p :: rest, source =>
    if p.2.source == source then rest else p :: remove_src rest source

/-- C `log_unregister` (void return). -/
def log_unregister (ctx : log_ctx_t) (source : List Char) : log_ctx_t :=
  if ctx.initialized = false then ctx
  else
    match HASH_FIND_STR ctx.source_hm source with
    | some _ => { ctx with source_hm := remove_src ctx.source_hm source }
    | none => ctx

/-- C `log_destroy`.  `mutex_destroy_ok` models `pthread_mutex_destroy`
(`true` = returned 0), consulted only when a mutex was in use.  The
function frees every hash element and clears the table but never writes
the `initialized` flag. -/
def log_destroy (ctx : log_ctx_t) (mutex_destroy_ok : Bool) :
    log_ctx_t × Bool :=
  if ctx.initialized = true then
    let ctx1 := { ctx with source_hm := [] }
    if ctx.use_mutex = true ∧ mutex_destroy_ok = false then (ctx1, false)
    else (ctx1, true)
  else (ctx, true)

/-- C `log_get_src_level`: stored level of a registered source, else
`LL_INVALID`. -/
def log_get_src_level (ctx : log_ctx_t) (source : List Char) : Nat :=
  match HASH_FIND_STR ctx.source_hm source with
  | some elt => elt.2.min_log_level
  | none => LL_INVALID

/-- C `log_get_global_level`. -/
def log_get_global_level (ctx : log_ctx_t) : Nat :=
  ctx.min_log_level

/-- C struct `log_src_dump_t`.  Each descriptor is the pair
`(source, min_log_level)` exactly as `log_src_dump` fills it in: the
`source` component is the POINTER `elt->source` (modelled by the element's
address), while `min_log_level` is copied by value. -/
structure log_src_dump_t where
  global_level : Nat
  num_log_src_descr : Nat
  log_src_descrs : List (Nat × Nat)
deriving DecidableEq

/-- C `log_src_dump`.  `malloc_ok` models the `malloc` result.  The loop
walks `hh.next` in insertion order and stores, for each element, the name
pointer and the level value. -/
def log_src_dump (ctx : log_ctx_t) (malloc_ok : Bool) :
    Option log_src_dump_t :=
  if ctx.initialized = false then none
  else if malloc_ok = false then none
  else some { global_level := ctx.min_log_level,
              num_log_src_descr := ctx.source_hm.length,
              log_src_descrs :=
                ctx.source_hm.map (fun p => (p.1, p.2.min_log_level)) }

/-- Dereference of a stored `source` pointer (as kept in a dump
descriptor): yields the string while the pointed-to hash element is still
allocated, and nothing once the element has been freed
(`HASH_DEL` + `free`). -/
def deref_source (ctx : log_ctx_t) (addr : Nat) : Option (List Char) :=
  (ctx.source_hm.find? (fun p => p.1 == addr)).map (fun p => p.2.source)

/-- C array `log_level_map` (indices `0 … LL_CNT-1`). -/
def log_level_map : Nat → List Char
  | 0 => "INVALID".toList
  | 1 => "RAW".toList
  | 2 => "TRACE".toList
  | 3 => "DEBUG".toList
  | 4 => "INFO".toList
  | 5 => "WARNING".toList
  | 6 => "ERROR".toList
  | 7 => "NONE".toList
  | _ => []

/-- C `strcasecmp(a, b) == 0` for ASCII strings: equality after lowercasing
each character. -/
def strcasecmp_eq (a b : List Char) : Bool :=
  (a.map Char.toLower) == (b.map Char.toLower)

/-- C `log_str_to_ll`: first level in `LL_INVALID … LL_CNT-1` whose
canonical name matches case-insensitively, else `LL_INVALID`. -/
def log_str_to_ll (str : List Char) : Nat :=
  ((List.range LL_CNT).find?
    (fun ll => strcasecmp_eq str (log_level_map ll))).getD LL_INVALID

/-- C `log_ll_to_str`.  The C guard is
`log_level >= LL_INVALID && log_level < LL_CNT`; with a `Nat` domain the
lower bound is vacuous. -/
def log_ll_to_str (log_level : Nat) : List Char :=
  if log_level < LL_CNT then log_level_map log_level
  else log_level_map LL_INVALID

/-- C constant `LOG_RAW_ADDR_FIELD_WIDTH`. -/
abbrev LOG_RAW_ADDR_FIELD_WIDTH : Nat := 8

/-- Uppercase hexadecimal digit character for `n < 16` (as printed by the
`%X` conversions). -/
def hexDigit (n : Nat) : Char :=
  if n < 10 then Char.ofNat (48 + n) else Char.ofNat (55 + n)

/-- Digit recursion behind `%zX`, driven by a fuel argument so that it is
structural (the fuel only bounds the number of digits: starting it at
`n + 1` never runs out because `n / 16 < n` for `n ≥ 16`). -/
def nat_hex_upper_fuel : Nat → Nat → List Char
  | 0, _ => []
  | fuel + 1, n =>
    if n < 16 then [hexDigit n]
    else nat_hex_upper_fuel fuel (n / 16) ++ [hexDigit (n % 16)]

/-- Uppercase hexadecimal digit string of `n` (no leading zeros; `"0"` for
zero), as produced by `%zX`. -/
def nat_hex_upper (n : Nat) : List Char :=
  nat_hex_upper_fuel (n + 1) n

/-- Output of `sprintf(buf_out, "%.8zX  ", off_bytes)`: the hex digits of
`off_bytes` zero-padded to at least 8 digits, followed by two spaces. -/
def offset_field (off_bytes : Nat) : List Char :=
  let ds := nat_hex_upper off_bytes
  List.replicate (8 - ds.length) '0' ++ ds ++ [' ', ' ']

/-- One hex group `sprintf(" %.2hhX", *ptr)`: a space and exactly two
uppercase hex digits of the byte (the argument is converted to
`unsigned char`, hence the `% 256`). -/
def byte_hex_group (b : Nat) : List Char :=
  [' ', hexDigit (b % 256 / 16), hexDigit (b % 256 % 16)]

/-- C `isprint(*cptr)` on a byte read through `char`: printable ASCII is
`0x20 … 0x7E`; bytes `0x80 … 0xFF` are read as negative `char` values and
are not printable. -/
def isprint_byte (b : Nat) : Bool :=
  decide (32 ≤ b % 256) && decide (b % 256 < 127)

/-- One character of the ASCII field: the byte itself if printable, else
a dot. -/
def ascii_char (b : Nat) : Char :=
  if isprint_byte b then Char.ofNat (b % 256) else '.'

/-- Wrapping `size_t` subtraction (64-bit), as in
`buf_in_size - offset*16`.  Faithful for operands below `2 ^ 64`. -/
def size_t_sub (a b : Nat) : Nat :=
  (2 ^ 64 + a - b) % 2 ^ 64

/-- C `compose_hexdump_line`: one row of the hex dump (no newline).  The C
code advances `buf_out` by exactly `LOG_RAW_ADDR_FIELD_WIDTH + 2 = 10`
bytes after printing the offset field, so any digits beyond the first ten
bytes of that field are overwritten by the hex groups; `List.take 10`
models that pointer arithmetic.  Bytes are read at `offset*16 + i`
(`getD … 0` is only exercised in-bounds by `log_raw`). -/
def compose_hexdump_line (buf_in : List Nat) (buf_in_size : Nat)
    (offset : Nat) : List Char :=
  let rem := size_t_sub buf_in_size (offset * 16)
  let limit := if rem > 16 then 16 else rem
  (offset_field (offset * 16)).take (LOG_RAW_ADDR_FIELD_WIDTH + 2)
  ++ ((List.range limit).map
        (fun i => byte_hex_group (buf_in.getD (offset * 16 + i) 0))).flatten
  ++ (List.replicate (16 - limit) ([' ', ' ', ' '] : List Char)).flatten
  ++ [' ', '|', ' ']
  ++ (List.range limit).map (fun i => ascii_char (buf_in.getD (offset * 16 + i) 0))

/-- The sequence of hex-dump rows printed by C `log_raw` for a non-NULL
buffer when the gate allows `LL_RAW`: the loop
`for (i = 0; i < length; i += 16) compose_hexdump_line(buffer, length, i/16, …)`
emits one row per started 16-byte chunk. -/
def log_raw_rows (buf : List Nat) : List (List Char) :=
  (List.range ((buf.length + 15) / 16)).map
    (fun r => compose_hexdump_line buf buf.length r)

/-- Number of registry elements whose stored name equals `source`. -/
def count_src (l : List (Nat × log_source_hm_elt)) (source : List Char) :
    Nat :=
  (l.filter (fun p => p.2.source == source)).length

/-- Registry invariant: every stored element carries a real level,
`LL_INVALID < min_log_level < LL_CNT`. -/
def entries_valid (l : List (Nat × log_source_hm_elt)) : Prop :=
  ∀ p ∈ l, LL_INVALID < p.2.min_log_level ∧ p.2.min_log_level < LL_CNT

/-- States of the logging context reachable from the zero-initialised
static through the public mutating entry points (with arbitrary arguments
and arbitrary outcomes of the fallible library calls).  The read-only
entry points (`log_log`, `log_raw`, `log_will_be_printed`,
`log_get_src_level`, `log_get_global_level`, `log_src_dump`) do not
change the context. -/
inductive log_reachable : log_ctx_t → Prop where
  | initial : log_reachable log_ctx_initial
  | init_op : ∀ {c : log_ctx_t} (lvl : Nat) (ts mok : Bool),
      log_reachable c → log_reachable (log_init c lvl ts mok).1
  | set_level_op : ∀ {c : log_ctx_t} (lvl : Nat),
      log_reachable c → log_reachable (log_set_log_level c lvl).1
  | register_op : ∀ {c : log_ctx_t} (s : List Char) (lvl : Nat) (ok : Bool),
      log_reachable c → log_reachable (log_register c s lvl ok).1
  | register_ex_op : ∀ {c : log_ctx_t} (ds : List (List Char × Nat))
      (ok : Nat → Bool),
      log_reachable c → log_reachable (log_register_ex c ds ok).1
  | unregister_op : ∀ {c : log_ctx_t} (s : List Char),
      log_reachable c → log_reachable (log_unregister c s)
  | destroy_op : ∀ {c : log_ctx_t} (ok : Bool),
      log_reachable c → log_reachable (log_destroy c ok).1

/-- A context right after a successful `log_init(LL_INFO, false)`. -/
def ctx_example : log_ctx_t :=
  (log_init log_ctx_initial LL_INFO false true).1

/-- `ctx_example` after a successful `log_register("NET", LL_DEBUG)`. -/
def ctx_example_net : log_ctx_t :=
  (log_register ctx_example ("NET".toList) LL_DEBUG true).1

/-- `ctx_example` after a successful `log_register("A", LL_INFO)` (the
element is allocated at address 0). -/
def ctx_c3_reg : log_ctx_t :=
  (log_register ctx_example ("A".toList) LL_INFO true).1

/-- A 128-character source name (one more than the 127 characters the
128-byte `source` array can store next to its terminating NUL). -/
def name_128 : List Char := List.replicate 128 'A'

/-- Shape of the `log_raw` hex dump of any 20-byte buffer: exactly two
rows; row 0 starts with the 8-hex-digit offset 0 and carries 16 full hex
groups; row 1 starts with the 8-hex-digit offset 16 (hex 10) and carries
4 hex groups, then 12 blank three-space groups, the separator, and an
ASCII field of exactly 4 characters.  The trailing conjuncts pin down the
character-level claims: hex digits are uppercase, and the ASCII rendering
maps a non-printable byte (10, line feed) to a dot and a printable one
(65) to itself. -/
def hexdump_rows_spec_20 (buf : List Nat) : Prop :=
  log_raw_rows buf =
    [ "00000000  ".toList ++ ((buf.take 16).map byte_hex_group).flatten
        ++ [' ', '|', ' '] ++ (buf.take 16).map ascii_char
    , "00000010  ".toList ++ ((buf.drop 16).map byte_hex_group).flatten
        ++ (List.replicate 12 ([' ', ' ', ' '] : List Char)).flatten
        ++ [' ', '|', ' '] ++ (buf.drop 16).map ascii_char ]
  ∧ ((buf.drop 16).map ascii_char).length = 4
  ∧ ((buf.take 16).map byte_hex_group).length = 16
  ∧ (List.range 16).map hexDigit = "0123456789ABCDEF".toList
  ∧ ascii_char 10 = '.'
  ∧ ascii_char 65 = 'A'

/-! ## Claim C1: the gate's effective threshold is `max(global, per-source)` -/

/--
C1: for every severity `s` with `LL_INVALID < s < LL_NONE` and valid
global threshold `g`, the gate (`log_will_be_printed`, a direct wrapper of
`is_log_allowed`) allows `s` for a registered source exactly when
`s ≥ max g p` where `p` is the source's stored minimum level
(`log_get_src_level`), and denies an unregistered source outright
(`Option.isSome = false` makes the right-hand side `false` regardless of
`g` and `s`).
-/
theorem gate_effective_max_c1 (ctx : log_ctx_t) (source : List Char)
    (s g : Nat)
    (hs1 : LL_INVALID < s) (hs2 : s < LL_NONE)
    (hg1 : LL_INVALID < g) (hg2 : g < LL_CNT)
    (hmin : ctx.min_log_level = g) :
    log_will_be_printed ctx source s
      = ((HASH_FIND_STR ctx.source_hm source).isSome
          && decide (max g (log_get_src_level ctx source) ≤ s)) := by
  cases hf : HASH_FIND_STR ctx.source_hm source with
  | none =>
    simp [log_will_be_printed, is_log_allowed, check_log_level, hf]
  | some p =>
    simp only [log_will_be_printed, is_log_allowed, check_log_level, hf,
      log_get_src_level, hmin, Option.isSome_some, Bool.true_and]
    by_cases hgs : g ≤ s
    · simp [hgs, Nat.max_le]
    · simp [hgs, Nat.max_le]

/-- Witness for C1 at a concrete registered source:
`ctx_example_net` has global level `LL_INFO` and source `"NET"` at
`LL_DEBUG`. -/
theorem gate_effective_max_c1_witness :
    LL_INVALID < LL_INFO ∧ LL_INFO < LL_NONE ∧ LL_INVALID < LL_INFO
    ∧ LL_INFO < LL_CNT ∧ ctx_example_net.min_log_level = LL_INFO
    ∧ log_will_be_printed ctx_example_net ("NET".toList) LL_INFO
        = ((HASH_FIND_STR ctx_example_net.source_hm ("NET".toList)).isSome
            && decide (max LL_INFO
                (log_get_src_level ctx_example_net ("NET".toList))
                ≤ LL_INFO)) :=
  ⟨by decide, by decide, by decide, by decide, by decide,
   gate_effective_max_c1 ctx_example_net ("NET".toList) LL_INFO LL_INFO
     (by decide) (by decide) (by decide) (by decide) (by decide)⟩

/-! ## Claim C2: when `log_init` fails; `log_destroy` does not re-enable it -/

/--
C2 counterexample: a successful `log_init`, then a successful
`log_destroy`, then `log_init` with the same valid level again — the
second `log_init` FAILS, contradicting the claim that after a successful
`log_destroy` a subsequent `log_init` with a valid level succeeds.
-/
theorem init_after_destroy_fails_c2_counterexample :
    (log_init log_ctx_initial LL_INFO false true).2 = true
    ∧ (log_destroy (log_init log_ctx_initial LL_INFO false true).1 true).2
        = true
    ∧ (log_init
        (log_destroy (log_init log_ctx_initial LL_INFO false true).1 true).1
        LL_INFO false true).2 = false := by decide

/--
C2 amended: `log_init` fails exactly when the requested level is
`LL_INVALID` or out of range, or the mutex guard fails to initialise (when
requested), or the context is already marked initialised — and
`log_destroy` never writes the `initialized` flag, so a successful destroy
does not re-enable `log_init`.
-/
theorem log_init_failure_iff_c2 (ctx : log_ctx_t) (lvl : Nat)
    (ts mok dok : Bool) :
    ((log_init ctx lvl ts mok).2 = false
      ↔ (ctx.initialized = true ∨ lvl = LL_INVALID ∨ LL_CNT ≤ lvl
          ∨ (ts = true ∧ mok = false)))
    ∧ (log_destroy ctx dok).1.initialized = ctx.initialized := by
  constructor
  · show (log_init ctx lvl ts mok).2 = false
      ↔ (ctx.initialized = true ∨ lvl = 0 ∨ 8 ≤ lvl
          ∨ (ts = true ∧ mok = false))
    have hll : (lvl ≤ LL_INVALID ∨ lvl ≥ LL_CNT) ↔ (lvl = 0 ∨ 8 ≤ lvl) := by
      show (lvl ≤ 0 ∨ 8 ≤ lvl) ↔ _
      omega
    cases hb : ctx.initialized <;> cases ts <;> cases mok <;>
      by_cases hl : lvl = 0 ∨ 8 ≤ lvl <;>
      simp [log_init, hb, hll, hl]
  · cases hb : ctx.initialized with
    | true =>
      simp only [log_destroy, hb, if_true]
      split <;> rfl
    | false => simp [log_destroy, hb]

/-! ## Claim C5: level-name round trip, unknown names, case-insensitivity -/

/--
C5: for every real severity `s` (`LL_RAW` through `LL_NONE`),
`log_str_to_ll (log_ll_to_str s) = s`; `log_str_to_ll` of a
non-canonical string is `LL_INVALID`; and parsing is case-insensitive
(`"error"` and `"ERROR"` parse alike).
-/
theorem level_roundtrip_c5 (s : Nat) (h1 : LL_INVALID < s)
    (h2 : s ≤ LL_NONE) :
    log_str_to_ll (log_ll_to_str s) = s
    ∧ log_str_to_ll ("bogus".toList) = LL_INVALID
    ∧ log_str_to_ll ("error".toList) = log_str_to_ll ("ERROR".toList) := by
  refine ⟨?_, by decide, by decide⟩
  have h2' : s ≤ 7 := h2
  have hlt : s < 8 := by omega
  have H : ∀ t, t < LL_CNT →
      (LL_INVALID < t → log_str_to_ll (log_ll_to_str t) = t) := by decide
  exact H s hlt h1

/-- Witness for C5 at `s = LL_ERROR`. -/
theorem level_roundtrip_c5_witness :
    LL_INVALID < LL_ERROR ∧ LL_ERROR ≤ LL_NONE
    ∧ (log_str_to_ll (log_ll_to_str LL_ERROR) = LL_ERROR
       ∧ log_str_to_ll ("bogus".toList) = LL_INVALID
       ∧ log_str_to_ll ("error".toList) = log_str_to_ll ("ERROR".toList)) :=
  ⟨by decide, by decide, level_roundtrip_c5 LL_ERROR (by decide) (by decide)⟩

/-! ## Claim C3: snapshot independence — refuted (dangling name pointer) -/

/--
C3 failing run: after `init(LL_INFO, false)` and `register("A", LL_INFO)`
(element allocated at address 0), `log_src_dump` returns a snapshot whose
descriptor holds the POINTER to the live element's name buffer (address
0), not a copy of the string.  While the element is alive that pointer
reads `"A"`; after `log_unregister("A")` frees the element, the very same
pointer stored in the snapshot no longer dereferences to anything — the
snapshot has a back-reference into the live registry and its
(source name, min level) pairs do not survive an unregister.
-/
theorem snapshot_dangling_c3 :
    log_src_dump ctx_c3_reg true
      = some { global_level := LL_INFO, num_log_src_descr := 1,
               log_src_descrs := [(0, LL_INFO)] }
    ∧ deref_source ctx_c3_reg 0 = some ("A".toList)
    ∧ deref_source (log_unregister ctx_c3_reg ("A".toList)) 0 = none := by
  decide

/-! ## Claim C4: overlong names rejected, never truncated — refuted at 128 -/

/--
C4 failing run: the stored `source` array holds at most
`LOG_SRC_STORED_MAX_SIZE - 1 = 127` characters beside the terminating
NUL, but the guard in `log_register` only rejects
`strlen(source) > 128`.  A 128-character name therefore passes the guard,
`log_register` reports success, yet the table stores only the first 127
characters — the name was silently truncated, and a lookup of the exact
registered name comes back `LL_INVALID`.
-/
theorem register_truncation_c4 :
    name_128.length = 128
    ∧ LOG_SRC_STORED_MAX_SIZE - 1 = 127
    ∧ (log_register ctx_example name_128 LL_INFO true).2 = true
    ∧ ((log_register ctx_example name_128 LL_INFO true).1.source_hm.map
        (fun p => p.2.source)) = [List.replicate 127 'A']
    ∧ log_get_src_level (log_register ctx_example name_128 LL_INFO true).1
        name_128 = LL_INVALID := by
  decide

/-! ## Helper lemmas about the registry list operations -/

/-- Variant of `List.find?_cons_of_pos` taking the predicate explicitly. -/
theorem find?_cons_pos {α : Type} (p : α → Bool) (a : α) (l : List α)
    (h : p a = true) : List.find? p (a :: l) = some a :=
  List.find?_cons_of_pos l h

/-- Variant of `List.find?_cons_of_neg` taking the predicate explicitly. -/
theorem find?_cons_neg {α : Type} (p : α → Bool) (a : α) (l : List α)
    (h : p a = false) : List.find? p (a :: l) = List.find? p l :=
  List.find?_cons_of_neg l (by simp [h])

/-- Updating the level of the element found for `source` moves `find?` to
the updated element: same address, new level. -/
theorem find?_update_min_level (l : List (Nat × log_source_hm_elt))
    (source : List Char) (lvl : Nat) :
    HASH_FIND_STR (update_min_level l source lvl) source
      = (HASH_FIND_STR l source).map
          (fun p => (p.1, { p.2 with min_log_level := lvl })) := by
  induction l with
  | nil => rfl
  | cons p t ih =>
    by_cases h : p.2.source == source
    · have h2 : (fun q : Nat × log_source_hm_elt => q.2.source == source)
          (p.1, { p.2 with min_log_level := lvl }) = true := h
      simp only [HASH_FIND_STR, update_min_level, if_pos h]
      rw [find?_cons_pos (fun q : Nat × log_source_hm_elt => q.2.source == source) _ _ h2,
        find?_cons_pos (fun q : Nat × log_source_hm_elt => q.2.source == source) _ _ h]
      rfl
    · have hb : (fun q : Nat × log_source_hm_elt => q.2.source == source) p
          = false := by simpa using h
      simp only [HASH_FIND_STR, update_min_level, if_neg h]
      rw [find?_cons_neg (fun q : Nat × log_source_hm_elt => q.2.source == source) _ _ hb,
        find?_cons_neg (fun q : Nat × log_source_hm_elt => q.2.source == source) _ _ hb]
      exact ih

/-- Updating a level does not change how many elements carry a given
name. -/
theorem count_src_update_min_level (l : List (Nat × log_source_hm_elt))
    (source : List Char) (lvl : Nat) :
    count_src (update_min_level l source lvl) source = count_src l source := by
  induction l with
  | nil => rfl
  | cons p t ih =>
    by_cases h : p.2.source == source
    · simp [count_src, update_min_level, h, List.filter_cons]
    · have hb : (p.2.source == source) = false := by simpa using h
      have ih' := ih
      simp only [count_src] at ih'
      simp only [count_src, update_min_level, if_neg h]
      simp [List.filter_cons, hb, ih']

/-- A name that `find?` does not locate occurs zero times. -/
theorem count_src_of_find?_none (l : List (Nat × log_source_hm_elt))
    (source : List Char) (h : HASH_FIND_STR l source = none) :
    count_src l source = 0 := by
  rw [HASH_FIND_STR, List.find?_eq_none] at h
  simp only [count_src, List.length_eq_zero]
  rw [List.filter_eq_nil]
  exact h

/-- A name that `find?` locates occurs at least once. -/
theorem count_src_pos_of_find?_some (l : List (Nat × log_source_hm_elt))
    (source : List Char) (p : Nat × log_source_hm_elt)
    (h : HASH_FIND_STR l source = some p) :
    1 ≤ count_src l source := by
  have h' : l.find? (fun q => q.2.source == source) = some p := h
  have hmem : p ∈ l := List.mem_of_find?_eq_some h'
  have hp : (p.2.source == source) = true := by
    simpa using List.find?_some h'
  have : p ∈ l.filter (fun q => q.2.source == source) :=
    List.mem_filter.mpr ⟨hmem, hp⟩
  have := List.length_pos.mpr (List.ne_nil_of_mem this)
  simpa [count_src] using this

/-- When the stored names are pairwise distinct, a name occurs at most
once. -/
theorem count_src_le_one_of_nodup (l : List (Nat × log_source_hm_elt))
    (source : List Char)
    (h : (l.map (fun p => p.2.source)).Nodup) :
    count_src l source ≤ 1 := by
  induction l with
  | nil => simp [count_src]
  | cons p t ih =>
    simp only [List.map_cons, List.nodup_cons] at h
    by_cases hp : p.2.source == source
    · have hps : p.2.source = source := by simpa using hp
      have ht : count_src t source = 0 := by
        simp only [count_src, List.length_eq_zero]
        rw [List.filter_eq_nil]
        intro q hq hqs
        have : q.2.source = source := by simpa using hqs
        exact h.1 (by
          rw [← hps] at this
          exact this ▸ List.mem_map_of_mem (fun r => r.2.source) hq)
      simp only [count_src, List.filter_cons, hp, if_true,
        List.length_cons]
      simp only [count_src] at ht
      omega
    · simp only [count_src, List.filter_cons, hp]
      simp only [count_src] at ih
      simpa using ih h.2

/-- Occurrence counts add over list append. -/
theorem count_src_append (l l' : List (Nat × log_source_hm_elt))
    (source : List Char) :
    count_src (l ++ l') source = count_src l source + count_src l' source := by
  simp [count_src, List.filter_append]

/-- A `log_register` call with a valid level on an initialised context and
a storable name (at most 127 characters) succeeds, and it leaves the
`initialized` flag set. -/
theorem log_register_success (ctx : log_ctx_t) (source : List Char)
    (lvl : Nat) (h1 : 0 < lvl) (h2 : lvl < 8) (h3 : ctx.initialized = true)
    (h4 : source.length ≤ 127) :
    (log_register ctx source lvl true).2 = true
    ∧ (log_register ctx source lvl true).1.initialized = true := by
  have hguard : ¬ (lvl ≤ LL_INVALID ∨ lvl ≥ LL_CNT) := by
    show ¬ (lvl ≤ 0 ∨ 8 ≤ lvl)
    omega
  have hlen : ¬ (source.length > LOG_SRC_STORED_MAX_SIZE) := by
    show ¬ (source.length > 128)
    omega
  simp only [log_register, hguard, hlen, h3, if_false]
  cases hf : HASH_FIND_STR ctx.source_hm source <;> simp [hf]

/-- After a successful `log_register`, looking up the registered name
yields the registered level. -/
theorem log_register_get (ctx : log_ctx_t) (source : List Char) (lvl : Nat)
    (h1 : 0 < lvl) (h2 : lvl < 8) (h3 : ctx.initialized = true)
    (h4 : source.length ≤ 127) :
    log_get_src_level (log_register ctx source lvl true).1 source = lvl := by
  have hguard : ¬ (lvl ≤ LL_INVALID ∨ lvl ≥ LL_CNT) := by
    show ¬ (lvl ≤ 0 ∨ 8 ≤ lvl)
    omega
  have hlen : ¬ (source.length > LOG_SRC_STORED_MAX_SIZE) := by
    show ¬ (source.length > 128)
    omega
  have htake : source.take (LOG_SRC_STORED_MAX_SIZE - 1) = source := by
    show source.take 127 = source
    exact List.take_of_length_le h4
  simp only [log_register, hguard, hlen, h3, if_false]
  cases hf : HASH_FIND_STR ctx.source_hm source with
  | some p =>
    have hu := find?_update_min_level ctx.source_hm source lvl
    rw [hf] at hu
    simp [hf, log_get_src_level, hu]
  | none =>
    have hf' : List.find?
        (fun q : Nat × log_source_hm_elt => q.2.source == source)
        ctx.source_hm = none := hf
    have hsingle : List.find?
        (fun q : Nat × log_source_hm_elt => q.2.source == source)
        [(ctx.next_addr,
          ({ source := source.take (LOG_SRC_STORED_MAX_SIZE - 1),
             min_log_level := lvl } : log_source_hm_elt))]
        = some (ctx.next_addr,
            { source := source.take (LOG_SRC_STORED_MAX_SIZE - 1),
              min_log_level := lvl }) := by
      apply find?_cons_pos
      simp [htake, h4]
    have happ : HASH_FIND_STR (ctx.source_hm ++
        [(ctx.next_addr,
          ({ source := source.take (LOG_SRC_STORED_MAX_SIZE - 1),
             min_log_level := lvl } : log_source_hm_elt))]) source
        = some (ctx.next_addr,
            { source := source.take (LOG_SRC_STORED_MAX_SIZE - 1),
              min_log_level := lvl }) := by
      show List.find? _ _ = _
      rw [List.find?_append, hf', hsingle]
      rfl
    have htake2 : List.take 127 source = source := htake
    rw [htake] at happ
    simp [hf, log_get_src_level, htake2, happ]

/-- A successful `log_register` leaves the name occurring
`max 1 (previous count)` times: an overwrite keeps the count, a fresh
insertion raises it from 0 to 1. -/
theorem log_register_count (ctx : log_ctx_t) (source : List Char) (lvl : Nat)
    (h1 : 0 < lvl) (h2 : lvl < 8) (h3 : ctx.initialized = true)
    (h4 : source.length ≤ 127) :
    count_src (log_register ctx source lvl true).1.source_hm source
      = max 1 (count_src ctx.source_hm source) := by
  have hguard : ¬ (lvl ≤ LL_INVALID ∨ lvl ≥ LL_CNT) := by
    show ¬ (lvl ≤ 0 ∨ 8 ≤ lvl)
    omega
  have hlen : ¬ (source.length > LOG_SRC_STORED_MAX_SIZE) := by
    show ¬ (source.length > 128)
    omega
  have htake : source.take (LOG_SRC_STORED_MAX_SIZE - 1) = source := by
    show source.take 127 = source
    exact List.take_of_length_le h4
  have hg2 : ¬ (lvl = 0 ∨ LL_CNT ≤ lvl) := by
    show ¬ (lvl = 0 ∨ 8 ≤ lvl)
    omega
  cases hf : HASH_FIND_STR ctx.source_hm source with
  | some p =>
    have hhm : (log_register ctx source lvl true).1.source_hm
        = update_min_level ctx.source_hm source lvl := by
      simp [log_register, hguard, hlen, h3, hf, hg2]
    have hpos := count_src_pos_of_find?_some ctx.source_hm source p hf
    rw [hhm, count_src_update_min_level]
    omega
  | none =>
    have hhm : (log_register ctx source lvl true).1.source_hm
        = ctx.source_hm ++ [(ctx.next_addr,
            ({ source := source.take (LOG_SRC_STORED_MAX_SIZE - 1),
               min_log_level := lvl } : log_source_hm_elt))] := by
      simp [log_register, hguard, hlen, h3, hf, hg2]
    have h0 := count_src_of_find?_none ctx.source_hm source hf
    have hone : count_src
        [(ctx.next_addr,
          ({ source := source.take (LOG_SRC_STORED_MAX_SIZE - 1),
             min_log_level := lvl } : log_source_hm_elt))] source = 1 := by
      simp [count_src, List.filter_cons, htake, h4]
    rw [hhm, count_src_append, h0, hone]
    decide

/-! ## Claim C6: `log_register_ex` stops at the first failure, no rollback -/

/--
C6: for a batch `[(A, valid level), (B, invalid level)]` on an initialised
context, `log_register_ex` registers `A`, fails on `B`, reports failure
for the batch, and leaves the state exactly as it was after `A`'s
registration — so a subsequent lookup of `A` yields `A`'s level.
-/
theorem register_ex_no_rollback_c6 (ctx : log_ctx_t) (A B : List Char)
    (la lb : Nat) (calloc_ok : Nat → Bool)
    (hinit : ctx.initialized = true)
    (hla1 : LL_INVALID < la) (hla2 : la < LL_CNT)
    (hA : A.length ≤ LOG_SRC_STORED_MAX_SIZE - 1)
    (hlb : lb = LL_INVALID ∨ LL_CNT ≤ lb)
    (halloc : calloc_ok 0 = true) :
    (log_register_ex ctx [(A, la), (B, lb)] calloc_ok).2 = false
    ∧ (log_register_ex ctx [(A, la), (B, lb)] calloc_ok).1
        = (log_register ctx A la true).1
    ∧ log_get_src_level
        (log_register_ex ctx [(A, la), (B, lb)] calloc_ok).1 A = la := by
  have hA' : A.length ≤ 127 := hA
  have hsucc := log_register_success ctx A la hla1 hla2 hinit hA'
  have hget := log_register_get ctx A la hla1 hla2 hinit hA'
  have hlb' : lb ≤ LL_INVALID ∨ lb ≥ LL_CNT := by
    show lb ≤ 0 ∨ 8 ≤ lb
    have hlb2 : lb = 0 ∨ 8 ≤ lb := hlb
    omega
  have hBfail : log_register (log_register ctx A la true).1 B lb
      (calloc_ok 1) = ((log_register ctx A la true).1, false) := by
    simp only [log_register, hlb', if_true]
  refine ⟨?_, ?_, ?_⟩ <;>
    simp [log_register_ex, hinit, log_register_ex_loop, halloc, hsucc.1,
      hBfail, hget]

/-- Witness for C6: batch `[("NET", LL_DEBUG), ("X", LL_CNT)]` on
`ctx_example`. -/
theorem register_ex_no_rollback_c6_witness :
    ctx_example.initialized = true
    ∧ LL_INVALID < LL_DEBUG ∧ LL_DEBUG < LL_CNT
    ∧ ("NET".toList).length ≤ LOG_SRC_STORED_MAX_SIZE - 1
    ∧ ((LL_CNT : Nat) = LL_INVALID ∨ LL_CNT ≤ LL_CNT)
    ∧ (fun _ : Nat => true) 0 = true
    ∧ ((log_register_ex ctx_example
          [(("NET".toList), LL_DEBUG), (("X".toList), LL_CNT)]
          (fun _ => true)).2 = false
       ∧ (log_register_ex ctx_example
            [(("NET".toList), LL_DEBUG), (("X".toList), LL_CNT)]
            (fun _ => true)).1
          = (log_register ctx_example ("NET".toList) LL_DEBUG true).1
       ∧ log_get_src_level (log_register_ex ctx_example
            [(("NET".toList), LL_DEBUG), (("X".toList), LL_CNT)]
            (fun _ => true)).1 ("NET".toList) = LL_DEBUG) :=
  ⟨by decide, by decide, by decide, by decide, by decide, rfl,
   register_ex_no_rollback_c6 ctx_example ("NET".toList) ("X".toList)
     LL_DEBUG LL_CNT (fun _ => true) (by decide) (by decide) (by decide)
     (by decide) (by decide) rfl⟩

/-! ## Claim C7: registering the same name twice — last writer wins -/

/--
C7: on an initialised context whose registry holds pairwise-distinct
names, registering the same storable name twice with two valid levels
leaves exactly one registry entry for that name, and its stored level is
the one from the second call.
-/
theorem register_twice_single_entry_c7 (ctx : log_ctx_t) (name : List Char)
    (l1 l2 : Nat)
    (hinit : ctx.initialized = true)
    (h11 : LL_INVALID < l1) (h12 : l1 < LL_CNT)
    (h21 : LL_INVALID < l2) (h22 : l2 < LL_CNT)
    (hname : name.length ≤ LOG_SRC_STORED_MAX_SIZE - 1)
    (hnodup : (ctx.source_hm.map (fun p => p.2.source)).Nodup) :
    count_src (log_register (log_register ctx name l1 true).1 name l2
        true).1.source_hm name = 1
    ∧ log_get_src_level (log_register (log_register ctx name l1 true).1 name
        l2 true).1 name = l2 := by
  have hname' : name.length ≤ 127 := hname
  have hs1 := log_register_success ctx name l1 h11 h12 hinit hname'
  have hc1 := log_register_count ctx name l1 h11 h12 hinit hname'
  have hc0 : count_src ctx.source_hm name ≤ 1 :=
    count_src_le_one_of_nodup ctx.source_hm name hnodup
  have hc1' : count_src (log_register ctx name l1 true).1.source_hm name
      = 1 := by
    rw [hc1]
    omega
  have hc2 := log_register_count (log_register ctx name l1 true).1 name l2
    h21 h22 hs1.2 hname'
  have hg2 := log_register_get (log_register ctx name l1 true).1 name l2
    h21 h22 hs1.2 hname'
  refine ⟨?_, hg2⟩
  rw [hc2, hc1']
  decide

/-- Witness for C7: registering `"NET"` at `LL_DEBUG` and then at
`LL_ERROR` on `ctx_example`. -/
theorem register_twice_single_entry_c7_witness :
    ctx_example.initialized = true
    ∧ LL_INVALID < LL_DEBUG ∧ LL_DEBUG < LL_CNT
    ∧ LL_INVALID < LL_ERROR ∧ LL_ERROR < LL_CNT
    ∧ ("NET".toList).length ≤ LOG_SRC_STORED_MAX_SIZE - 1
    ∧ (ctx_example.source_hm.map (fun p => p.2.source)).Nodup
    ∧ (count_src (log_register (log_register ctx_example ("NET".toList)
          LL_DEBUG true).1 ("NET".toList) LL_ERROR true).1.source_hm
          ("NET".toList) = 1
       ∧ log_get_src_level (log_register (log_register ctx_example
            ("NET".toList) LL_DEBUG true).1 ("NET".toList) LL_ERROR
            true).1 ("NET".toList) = LL_ERROR) :=
  ⟨by decide, by decide, by decide, by decide, by decide, by decide,
   by decide,
   register_twice_single_entry_c7 ctx_example ("NET".toList) LL_DEBUG
     LL_ERROR (by decide) (by decide) (by decide) (by decide) (by decide)
     (by decide) (by decide)⟩

/-! ## Claim C10: registry-level invariant and `log_get_src_level` sentinel -/

/-- Every element of an updated registry is either an original element or
an original element with its level replaced. -/
theorem mem_update_min_level (l : List (Nat × log_source_hm_elt))
    (source : List Char) (lvl : Nat) :
    ∀ q ∈ update_min_level l source lvl,
      q ∈ l ∨ ∃ p ∈ l, q = (p.1, { p.2 with min_log_level := lvl }) := by
  induction l with
  | nil =>
    intro q hq
    simp [update_min_level] at hq
  | cons p t ih =>
    intro q hq
    by_cases hp : p.2.source == source
    · rw [update_min_level, if_pos hp] at hq
      rcases List.mem_cons.mp hq with rfl | hq2
      · exact Or.inr ⟨p, List.mem_cons_self p t, rfl⟩
      · exact Or.inl (List.mem_cons_of_mem p hq2)
    · rw [update_min_level, if_neg hp] at hq
      rcases List.mem_cons.mp hq with rfl | hq2
      · exact Or.inl (List.mem_cons_self q t)
      · rcases ih q hq2 with h | ⟨r, hr, rfl⟩
        · exact Or.inl (List.mem_cons_of_mem p h)
        · exact Or.inr ⟨r, List.mem_cons_of_mem p hr, rfl⟩

/-- Unlinking an element keeps a sublist: every remaining element was
there before. -/
theorem mem_remove_src (l : List (Nat × log_source_hm_elt))
    (source : List Char) :
    ∀ q ∈ remove_src l source, q ∈ l := by
  induction l with
  | nil =>
    intro q hq
    simp [remove_src] at hq
  | cons p t ih =>
    intro q hq
    by_cases hp : p.2.source == source
    · rw [remove_src, if_pos hp] at hq
      exact List.mem_cons_of_mem p hq
    · rw [remove_src, if_neg hp] at hq
      rcases List.mem_cons.mp hq with rfl | hq2
      · exact List.mem_cons_self q t
      · exact List.mem_cons_of_mem p (ih q hq2)

/-- `log_init` never touches the registry. -/
theorem log_init_source_hm (ctx : log_ctx_t) (lvl : Nat) (ts mok : Bool) :
    (log_init ctx lvl ts mok).1.source_hm = ctx.source_hm := by
  by_cases hb : ctx.initialized = false <;>
    by_cases hl : lvl ≤ LL_INVALID ∨ lvl ≥ LL_CNT <;>
    by_cases hts : ts = true ∧ mok = false <;>
    simp [log_init, hb, hl, hts] <;> split <;> rfl

/-- `log_set_log_level` never touches the registry. -/
theorem log_set_log_level_source_hm (ctx : log_ctx_t) (lvl : Nat) :
    (log_set_log_level ctx lvl).1.source_hm = ctx.source_hm := by
  by_cases hl : lvl ≤ LL_INVALID ∨ lvl ≥ LL_CNT <;>
    by_cases hb : ctx.initialized = false <;>
    simp [log_set_log_level, hl, hb] <;> split <;> rfl

/-- `log_register` preserves the registry-level invariant: it only ever
stores a level that passed the `LL_INVALID < lvl < LL_CNT` guard. -/
theorem log_register_entries_valid (ctx : log_ctx_t) (source : List Char)
    (lvl : Nat) (ok : Bool) (h : entries_valid ctx.source_hm) :
    entries_valid (log_register ctx source lvl ok).1.source_hm := by
  by_cases hg : lvl = 0 ∨ LL_CNT ≤ lvl
  · simpa [log_register, hg] using h
  · by_cases hi : ctx.initialized = false
    · simpa [log_register, hg, hi] using h
    · by_cases hl : source.length > LOG_SRC_STORED_MAX_SIZE
      · simpa [log_register, hg, hi, hl] using h
      · have hg2 : ¬ (lvl = 0 ∨ 8 ≤ lvl) := hg
        have hlv1 : LL_INVALID < lvl := by
          show 0 < lvl
          omega
        have hlv2 : lvl < LL_CNT := by
          show lvl < 8
          omega
        cases hf : HASH_FIND_STR ctx.source_hm source with
        | some p =>
          have hhm : (log_register ctx source lvl ok).1.source_hm
              = update_min_level ctx.source_hm source lvl := by
            simp [log_register, hg, hi, hl, hf]
          rw [hhm]
          intro q hq
          rcases mem_update_min_level ctx.source_hm source lvl q hq with
            hq2 | ⟨r, _hr, rfl⟩
          · exact h q hq2
          · exact ⟨hlv1, hlv2⟩
        | none =>
          cases ok with
          | false => simpa [log_register, hg, hi, hl, hf] using h
          | true =>
            have hhm : (log_register ctx source lvl true).1.source_hm
                = ctx.source_hm ++ [(ctx.next_addr,
                    ({ source := source.take (LOG_SRC_STORED_MAX_SIZE - 1),
                       min_log_level := lvl } : log_source_hm_elt))] := by
              simp [log_register, hg, hi, hl, hf]
            rw [hhm]
            intro q hq
            rcases List.mem_append.mp hq with hq2 | hq2
            · exact h q hq2
            · rcases List.mem_singleton.mp hq2 with rfl
              exact ⟨hlv1, hlv2⟩

/-- The `log_register_ex` loop preserves the registry-level invariant. -/
theorem log_register_ex_loop_entries_valid
    (descrs : List (List Char × Nat)) (calloc_ok : Nat → Bool) :
    ∀ (ctx : log_ctx_t) (i : Nat), entries_valid ctx.source_hm →
      entries_valid (log_register_ex_loop ctx descrs calloc_ok
        i).1.source_hm := by
  induction descrs with
  | nil =>
    intro ctx i h
    simpa [log_register_ex_loop] using h
  | cons d rest ih =>
    intro ctx i h
    simp only [log_register_ex_loop]
    by_cases hr : (log_register ctx d.1 d.2 (calloc_ok i)).2 = true
    · simp only [hr, if_true]
      exact ih _ _ (log_register_entries_valid ctx d.1 d.2 (calloc_ok i) h)
    · simp only [hr, if_false]
      exact log_register_entries_valid ctx d.1 d.2 (calloc_ok i) h

/-- `log_register_ex` preserves the registry-level invariant. -/
theorem log_register_ex_entries_valid (ctx : log_ctx_t)
    (descrs : List (List Char × Nat)) (calloc_ok : Nat → Bool)
    (h : entries_valid ctx.source_hm) :
    entries_valid (log_register_ex ctx descrs calloc_ok).1.source_hm := by
  by_cases hb : ctx.initialized = false
  · simpa [log_register_ex, hb] using h
  · simp only [log_register_ex, hb, if_false]
    exact log_register_ex_loop_entries_valid descrs calloc_ok ctx 0 h

/-- `log_unregister` preserves the registry-level invariant. -/
theorem log_unregister_entries_valid (ctx : log_ctx_t) (source : List Char)
    (h : entries_valid ctx.source_hm) :
    entries_valid (log_unregister ctx source).source_hm := by
  by_cases hb : ctx.initialized = false
  · simpa [log_unregister, hb] using h
  · cases hf : HASH_FIND_STR ctx.source_hm source with
    | some p =>
      have hhm : (log_unregister ctx source).source_hm
          = remove_src ctx.source_hm source := by
        simp [log_unregister, hb, hf]
      rw [hhm]
      intro q hq
      exact h q (mem_remove_src ctx.source_hm source q hq)
    | none => simpa [log_unregister, hb, hf] using h

/-- `log_destroy` preserves the registry-level invariant (it clears the
registry or leaves it alone). -/
theorem log_destroy_entries_valid (ctx : log_ctx_t) (ok : Bool)
    (h : entries_valid ctx.source_hm) :
    entries_valid (log_destroy ctx ok).1.source_hm := by
  by_cases hb : ctx.initialized = true
  · have hhm : (log_destroy ctx ok).1.source_hm = [] := by
      simp only [log_destroy, hb, if_true]
      split <;> rfl
    rw [hhm]
    intro q hq
    simp at hq
  · simpa [log_destroy, hb] using h

/-- In every reachable context, every registry element carries a real
level. -/
theorem log_reachable_entries_valid (ctx : log_ctx_t)
    (h : log_reachable ctx) : entries_valid ctx.source_hm := by
  induction h with
  | initial =>
    intro q hq
    simp [log_ctx_initial] at hq
  | init_op lvl ts mok _ ih =>
    rw [log_init_source_hm]
    exact ih
  | set_level_op lvl _ ih =>
    rw [log_set_log_level_source_hm]
    exact ih
  | register_op s lvl ok _ ih => exact log_register_entries_valid _ s lvl ok ih
  | register_ex_op ds ok _ ih => exact log_register_ex_entries_valid _ ds ok ih
  | unregister_op s _ ih => exact log_unregister_entries_valid _ s ih
  | destroy_op ok _ ih => exact log_destroy_entries_valid _ ok ih

/--
C10: in every reachable context, every stored registry element has a min
level strictly between `LL_INVALID` and `LL_CNT` (stated as a decidable
`List.all` over the registry), and consequently `log_get_src_level`
returns `LL_INVALID` exactly for names that are not registered
(`HASH_FIND_STR` finds nothing).
-/
theorem registry_levels_valid_c10 (ctx : log_ctx_t) (source : List Char)
    (h : log_reachable ctx) :
    (ctx.source_hm.all (fun p =>
        decide (LL_INVALID < p.2.min_log_level)
        && decide (p.2.min_log_level < LL_CNT)) = true)
    ∧ (log_get_src_level ctx source = LL_INVALID
        ↔ HASH_FIND_STR ctx.source_hm source = none) := by
  have hv := log_reachable_entries_valid ctx h
  constructor
  · rw [List.all_eq_true]
    intro p hp
    have hq := hv p hp
    simp only [Bool.and_eq_true, decide_eq_true_eq]
    exact hq
  · cases hf : HASH_FIND_STR ctx.source_hm source with
    | none => simp [log_get_src_level, hf]
    | some p =>
      have hmem : p ∈ ctx.source_hm := by
        have hf' : ctx.source_hm.find?
            (fun q => q.2.source == source) = some p := hf
        exact List.mem_of_find?_eq_some hf'
      have hq := hv p hmem
      have hq1 : 0 < p.2.min_log_level := hq.1
      simp only [log_get_src_level, hf]
      constructor
      · intro h0
        omega
      · intro h0
        cases h0

/-- Witness for C10 at the concrete reachable context `ctx_example_net`. -/
theorem registry_levels_valid_c10_witness :
    log_reachable ctx_example_net
    ∧ ((ctx_example_net.source_hm.all (fun p =>
          decide (LL_INVALID < p.2.min_log_level)
          && decide (p.2.min_log_level < LL_CNT)) = true)
        ∧ (log_get_src_level ctx_example_net ("NET".toList) = LL_INVALID
            ↔ HASH_FIND_STR ctx_example_net.source_hm ("NET".toList)
                = none)) :=
  ⟨log_reachable.register_op ("NET".toList) LL_DEBUG true
     (log_reachable.init_op LL_INFO false true log_reachable.initial),
   registry_levels_valid_c10 ctx_example_net ("NET".toList)
     (log_reachable.register_op ("NET".toList) LL_DEBUG true
       (log_reachable.init_op LL_INFO false true log_reachable.initial))⟩

/-! ## Claims C8 and C9: hex-dump row shape and output bound -/

/-- One hex group is always three characters long. -/
theorem byte_hex_group_length (b : Nat) : (byte_hex_group b).length = 3 :=
  rfl

/-- The `%zX` digit string is never empty. -/
theorem nat_hex_upper_length_pos (n : Nat) :
    1 ≤ (nat_hex_upper n).length := by
  simp only [nat_hex_upper, nat_hex_upper_fuel]
  split <;> simp

/-- The printed offset field is at least 10 characters (8 digits plus two
spaces). -/
theorem offset_field_length_ge (n : Nat) :
    10 ≤ (offset_field n).length := by
  have h := nat_hex_upper_length_pos n
  simp only [offset_field, List.length_append, List.length_replicate,
    List.length_cons, List.length_nil]
  omega

/-- Reading `n` in-range indices through `getD` is mapping over the
`n`-element front of the list. -/
theorem range_map_getD {α : Type} (l : List Nat) (f : Nat → α) :
    ∀ n, n ≤ l.length →
      (List.range n).map (fun i => f (l.getD i 0)) = (l.take n).map f := by
  intro n
  induction n with
  | zero =>
    intro _
    simp
  | succ m ih =>
    intro h
    have hm : m < l.length := by omega
    rw [List.range_succ, List.map_append, ih (by omega), List.take_succ,
      List.map_append]
    simp [List.getD_eq_getElem?_getD, List.getElem?_eq_getElem hm]

/-- Reading `n` in-range indices at an offset `m` through `getD` is
mapping over an `n`-element slice of the list. -/
theorem range_map_getD_add {α : Type} (l : List Nat) (f : Nat → α)
    (m n : Nat) (h : m + n ≤ l.length) :
    (List.range n).map (fun i => f (l.getD (m + i) 0))
      = ((l.drop m).take n).map f := by
  have h2 : n ≤ (l.drop m).length := by
    simp only [List.length_drop]
    omega
  rw [← range_map_getD (l.drop m) f n h2]
  refine List.map_congr_left ?_
  intro i _
  congr 1
  rw [List.getD_eq_getElem?_getD, List.getD_eq_getElem?_getD,
    List.getElem?_drop]

/-- Summing a constant-3 map counts three per element. -/
theorem sum_map_three {α : Type} (l : List α) :
    (l.map (fun _ => (3 : Nat))).sum = 3 * l.length := by
  induction l with
  | nil => simp
  | cons a t ih =>
    simp only [List.map_cons, List.sum_cons, List.length_cons, ih]
    omega

/-- Total length of `limit` three-character hex groups. -/
theorem flatten_length_groups (limit : Nat) (g : Nat → List Char)
    (hg : ∀ i, (g i).length = 3) :
    (((List.range limit).map g).flatten).length = 3 * limit := by
  rw [List.length_flatten, List.map_map]
  have hmap : (List.range limit).map (List.length ∘ g)
      = (List.range limit).map (fun _ => (3 : Nat)) := by
    refine List.map_congr_left ?_
    intro i _
    exact hg i
  rw [hmap, sum_map_three, List.length_range]

/-- Total length of `k` blank three-space groups. -/
theorem flatten_length_replicate (k : Nat) :
    ((List.replicate k ([' ', ' ', ' '] : List Char)).flatten).length
      = 3 * k := by
  induction k with
  | zero => simp
  | succ n ih =>
    simp only [List.replicate_succ, List.flatten_cons, List.length_append,
      ih, List.length_cons, List.length_nil]
    omega

/--
C9: for every buffer, buffer size and row offset reachable from
`log_raw` (`offset*16 < buf_in_size`, sizes being `size_t` values below
`2^64`), the string built by `compose_hexdump_line` — including its
terminating NUL — fits in the 100-byte output buffer `log_raw` provides:
its length plus one never exceeds 100 (the maximum possible row is
77 characters plus NUL).
-/
theorem hexdump_line_bounded_c9 (buf_in : List Nat)
    (buf_in_size offset : Nat)
    (h1 : offset * 16 < buf_in_size) (h2 : buf_in_size < 2 ^ 64) :
    (compose_hexdump_line buf_in buf_in_size offset).length + 1 ≤ 100 := by
  simp only [compose_hexdump_line]
  set rem := size_t_sub buf_in_size (offset * 16) with hrem
  set limit := (if rem > 16 then 16 else rem) with hlim
  have hl16 : limit ≤ 16 := by
    rw [hlim]
    split <;> omega
  have hoff := offset_field_length_ge (offset * 16)
  rw [List.length_append, List.length_append, List.length_append,
    List.length_append]
  rw [flatten_length_groups limit
    (fun i => byte_hex_group (buf_in.getD (offset * 16 + i) 0))
    (fun i => byte_hex_group_length _)]
  rw [flatten_length_replicate]
  have hfield : LOG_RAW_ADDR_FIELD_WIDTH + 2 = 10 := rfl
  simp only [List.length_take, List.length_map, List.length_range,
    List.length_cons, List.length_nil, hfield]
  omega

/-- Witness for C9 at a concrete 3-byte buffer and row 0. -/
theorem hexdump_line_bounded_c9_witness :
    0 * 16 < 3 ∧ 3 < 2 ^ 64
    ∧ (compose_hexdump_line [1, 2, 3] 3 0).length + 1 ≤ 100 :=
  ⟨by decide, by decide,
   hexdump_line_bounded_c9 [1, 2, 3] 3 0 (by decide) (by decide)⟩

/-- Row 0 of the dump of a 20-byte buffer: offset field `00000000`, 16
full hex groups (no blank padding), separator, 16 ASCII characters. -/
theorem compose_row0_of_20 (buf : List Nat) (h : buf.length = 20) :
    compose_hexdump_line buf 20 0
      = "00000000  ".toList ++ ((buf.take 16).map byte_hex_group).flatten
        ++ [' ', '|', ' '] ++ (buf.take 16).map ascii_char := by
  have hremsub : size_t_sub 20 0 = 20 := by decide
  have hif : (if (20 : Nat) > 16 then 16 else 20) = 16 := by decide
  have hoffs : (offset_field 0).take (LOG_RAW_ADDR_FIELD_WIDTH + 2)
      = "00000000  ".toList := by decide
  simp only [compose_hexdump_line, Nat.zero_mul, Nat.zero_add, hremsub,
    hif, hoffs, Nat.sub_self, List.replicate_zero, List.flatten_nil,
    List.append_nil]
  rw [range_map_getD buf byte_hex_group 16 (by omega),
    range_map_getD buf ascii_char 16 (by omega)]

/-- Row 1 of the dump of a 20-byte buffer: offset field `00000010`, 4 hex
groups, 12 blank three-space groups, separator, exactly 4 ASCII
characters. -/
theorem compose_row1_of_20 (buf : List Nat) (h : buf.length = 20) :
    compose_hexdump_line buf 20 1
      = "00000010  ".toList ++ ((buf.drop 16).map byte_hex_group).flatten
        ++ (List.replicate 12 ([' ', ' ', ' '] : List Char)).flatten
        ++ [' ', '|', ' '] ++ (buf.drop 16).map ascii_char := by
  have hremsub : size_t_sub 20 16 = 4 := by decide
  have hif : (if (4 : Nat) > 16 then 16 else 4) = 4 := by decide
  have hoffs : (offset_field 16).take (LOG_RAW_ADDR_FIELD_WIDTH + 2)
      = "00000010  ".toList := by decide
  have hsub : (16 : Nat) - 4 = 12 := by decide
  have hdt : (buf.drop 16).take 4 = buf.drop 16 :=
    List.take_of_length_le (by simp [h])
  simp only [compose_hexdump_line, Nat.one_mul, hremsub, hif, hoffs, hsub]
  rw [range_map_getD_add buf byte_hex_group 16 4 (by omega),
    range_map_getD_add buf ascii_char 16 4 (by omega)]
  simp only [hdt]

/--
C8: hex-dumping any 20-byte buffer through `log_raw` produces exactly two
dump rows with the claimed shape — row 0 with 8-hex-digit offset 0 and 16
full hex groups, row 1 with 8-hex-digit offset 16, 4 hex groups, 12
blank-padded groups and an unpadded 4-character ASCII field — using
2-digit uppercase hex groups and dots for non-printable bytes
(`hexdump_rows_spec_20` spells out the full property).
-/
theorem hexdump_rows_20_c8 (buf : List Nat) (h : buf.length = 20) :
    hexdump_rows_spec_20 buf := by
  refine ⟨?_, ?_, ?_, by decide, by decide, by decide⟩
  · unfold log_raw_rows
    rw [h]
    have hr : (20 + 15) / 16 = 2 := by decide
    rw [hr]
    have hrange : List.range 2 = [0, 1] := by decide
    rw [hrange]
    simp only [List.map_cons, List.map_nil]
    rw [compose_row0_of_20 buf h, compose_row1_of_20 buf h]
  · simp [h]
  · simp [h]

/-- Witness for C8 at the concrete buffer `0, 1, …, 19`. -/
theorem hexdump_rows_20_c8_witness :
    (List.range 20).length = 20 ∧ hexdump_rows_spec_20 (List.range 20) :=
  ⟨by decide, hexdump_rows_20_c8 (List.range 20) (by decide)⟩
